import Mathlib

/-!
Shallow embedding of the `shavtzak` convoy-roster application core
(`src/app/data.service.ts`, models in `src/app/models.ts`).

The `DataService` store holds four pieces of state (the values of the four
`BehaviorSubject`s); every mutation method is modelled as a pure function
from the old state (plus arguments) to the new state.  The persistence side
channel (`localStorage` via `saveData`/`loadData`) and the RxJS observable
plumbing carry no information beyond the state itself and are not modelled.
JavaScript string equality `===` / `!==` on ids is modelled with `==` / `!=`
on `String`.
-/

set_option autoImplicit false

/-- `Person` from `models.ts`: `idNumber` and `fullName` strings. -/
structure Person where
  idNumber : String
  fullName : String
deriving DecidableEq, Inhabited

/-- `Vehicle` from `models.ts`: `vehicleId` and `designation` strings. -/
structure Vehicle where
  vehicleId : String
  designation : String
deriving DecidableEq, Inhabited

/-- `Assignment` from `models.ts`: the `(vehicleId, personId)` link plus the
`stay` flag. -/
structure Assignment where
  vehicleId : String
  personId : String
  stay : Bool
deriving DecidableEq, Inhabited

/-- `ConvoyInfo` from `models.ts`: goal, date, time strings. -/
structure ConvoyInfo where
  goal : String
  date : String
  time : String
deriving DecidableEq, Inhabited

/-- `AppData` from `models.ts`: the full snapshot.  The optional
`convoyInfo?` field is an `Option`; `undefined`/`null` are both `none`. -/
structure AppData where
  people : List Person
  vehicles : List Vehicle
  assignments : List Assignment
  convoyInfo : Option ConvoyInfo
deriving DecidableEq, Inhabited

/-- The observable state of `DataService`: the current values of its four
`BehaviorSubject`s. -/
structure DataService where
  people : List Person
  vehicles : List Vehicle
  assignments : List Assignment
  convoyInfo : Option ConvoyInfo
deriving DecidableEq, Inhabited

/-- The initial state: each `BehaviorSubject` starts from `[]` / `null`. -/
def emptyState : DataService :=
  { people := [], vehicles := [], assignments := [], convoyInfo := none }

/-- `addPerson`: `[...this.peopleSubject.value, person]` — unconditional
append, no duplicate check. -/
def DataService.addPerson (s : DataService) (person : Person) : DataService :=
  { s with people := s.people ++ [person] }

/-- `removePerson`: filters the person out by `idNumber` and cascades to
every assignment whose `personId` matches (`!==` on both filters). -/
def DataService.removePerson (s : DataService) (idNumber : String) : DataService :=
  { s with
    people := s.people.filter (fun p => p.idNumber != idNumber),
    assignments := s.assignments.filter (fun a => a.personId != idNumber) }

/-- `addVehicle`: unconditional append, mirror of `addPerson`. -/
def DataService.addVehicle (s : DataService) (vehicle : Vehicle) : DataService :=
  { s with vehicles := s.vehicles ++ [vehicle] }

/-- `removeVehicle`: filters the vehicle out by `vehicleId` and cascades to
every assignment whose `vehicleId` matches. -/
def DataService.removeVehicle (s : DataService) (vehicleId : String) : DataService :=
  { s with
    vehicles := s.vehicles.filter (fun v => v.vehicleId != vehicleId),
    assignments := s.assignments.filter (fun a => a.vehicleId != vehicleId) }

/-- The key test used by `addAssignment`'s `findIndex`:
`a.vehicleId === assignment.vehicleId && a.personId === assignment.personId`. -/
def sameKey (x a : Assignment) : Bool :=
  x.vehicleId == a.vehicleId && x.personId == a.personId

/-- The list transformation performed by `addAssignment`: find the first
entry with the same `(vehicleId, personId)` key (`findIndex`); if found,
replace only its `stay` field in place
(`assignments[existingIndex] = { ...assignments[existingIndex], stay }`);
otherwise push the new assignment at the end. -/
def addAssignmentList : List Assignment → Assignment → List Assignment
  | [], a => [a]
  | x :: xs, a =>
    if sameKey x a then { x with stay := a.stay } :: xs
    else x :: addAssignmentList xs a

/-- `addAssignment`: upsert on the `(vehicleId, personId)` key. -/
def DataService.addAssignment (s : DataService) (assignment : Assignment) : DataService :=
  { s with assignments := addAssignmentList s.assignments assignment }

/-- `removeAssignment`: removes the matching `(vehicleId, personId)` pair. -/
def DataService.removeAssignment (s : DataService) (vehicleId personId : String) : DataService :=
  { s with
    assignments := s.assignments.filter
      (fun a => !(a.vehicleId == vehicleId && a.personId == personId)) }

/-- `clearAll`: empties the three collections; `convoyInfoSubject` is not
touched. -/
def DataService.clearAll (s : DataService) : DataService :=
  { s with people := [], vehicles := [], assignments := [] }

/-- `clearAssignments`: empties `assignments` and nulls `convoyInfo` in the
same transition. -/
def DataService.clearAssignments (s : DataService) : DataService :=
  { s with assignments := [], convoyInfo := none }

/-- `setConvoyInfo`: wholesale replacement of the singleton. -/
def DataService.setConvoyInfo (s : DataService) (convoyInfo : ConvoyInfo) : DataService :=
  { s with convoyInfo := some convoyInfo }

/-- `exportData`: the current state packaged as an `AppData`.
(`convoyInfo: value || undefined` maps `null` to `undefined`; both are
`none` here.) -/
def DataService.exportData (s : DataService) : AppData :=
  { people := s.people, vehicles := s.vehicles,
    assignments := s.assignments, convoyInfo := s.convoyInfo }

/-- `importData`: wholesale replacement of all four pieces of state.
(The `data.people || []` guards only apply to untyped JSON whose fields are
missing — a JavaScript array, even `[]`, is truthy — so on a well-typed
`AppData` each field is taken as is; `data.convoyInfo || null` is the
identity on the `Option` model.) -/
def DataService.importData (_s : DataService) (data : AppData) : DataService :=
  { people := data.people, vehicles := data.vehicles,
    assignments := data.assignments, convoyInfo := data.convoyInfo }

/-- The stay label in `generateOutput`: `item.stay ? 'שהיה' : 'ללא שהיה'`. -/
def stayLabel (stay : Bool) : String :=
  if stay then "שהיה" else "ללא שהיה"

/-- `people.find(p => p.idNumber === assignment.personId)` — first match in
collection order. -/
def resolvePerson (people : List Person) (personId : String) : Option Person :=
  people.find? (fun p => p.idNumber == personId)

/-- The `assignedPeople` computation inside `generateOutput`: assignments of
this vehicle, each mapped to its resolved person (`find` may miss) and
`stay`, then filtered to the resolvable ones (`.filter(item => item.person)`). -/
def assignedPeople (people : List Person) (assignments : List Assignment)
    (vehicle : Vehicle) : List (Option Person × Bool) :=
  ((assignments.filter (fun a => a.vehicleId == vehicle.vehicleId)).map
      (fun a => (resolvePerson people a.personId, a.stay))).filter
    (fun item => item.1.isSome)

/-- The `vehicleGroups` computation inside `generateOutput`: every vehicle
paired with its resolved occupants, keeping only groups with
`group.people.length > 0`. -/
def vehicleGroups (s : DataService) : List (Vehicle × List (Option Person × Bool)) :=
  (s.vehicles.map (fun vehicle => (vehicle, assignedPeople s.people s.assignments vehicle))).filter
    (fun group => group.2.length > 0)

/-- One person line:
`` `${item.person!.fullName} ${item.person!.idNumber} - ${stayLabel}` ``
(`item.person!` is the non-null assertion after the `isSome` filter). -/
def personLine (item : Option Person × Bool) : String :=
  item.1.get!.fullName ++ " " ++ item.1.get!.idNumber ++ " - " ++ stayLabel item.2

/-- One group: the `"designation vehicleId"` header line followed by the
person lines, joined with `'\n'`. -/
def groupText (group : Vehicle × List (Option Person × Bool)) : String :=
  String.intercalate "\n"
    ((group.1.designation ++ " " ++ group.1.vehicleId) :: group.2.map personLine)

/-- The convoy-info header block of `generateOutput` (three labelled lines
plus a blank separator), or `""` when `convoyInfo` is `null`. -/
def convoyHeader : Option ConvoyInfo → String
  | some c =>
      "מטרת השיירה: " ++ c.goal ++ "\n" ++ "תאריך: " ++ c.date ++ "\n"
        ++ "שעה: " ++ c.time ++ "\n\n"
  | none => ""

/-- `generateOutput`: optional header, then the group texts joined with
`'\n\n'`. -/
def DataService.generateOutput (s : DataService) : String :=
  convoyHeader s.convoyInfo
    ++ String.intercalate "\n\n" ((vehicleGroups s).map groupText)

/-- Uniqueness of the entity keys (spec invariant I1): no two people share
an `idNumber` and no two vehicles share a `vehicleId`. -/
def uniqueKeys (s : DataService) : Prop :=
  s.people.Pairwise (fun p q => p.idNumber ≠ q.idNumber)
    ∧ s.vehicles.Pairwise (fun v w => v.vehicleId ≠ w.vehicleId)

/-- Boolean key test for observations about `addAssignment`: does `x` carry
key `(v, p)`.  `sameKey x a` is definitionally
`hasKey a.vehicleId a.personId x`. -/
def hasKey (v p : String) (x : Assignment) : Bool :=
  x.vehicleId == v && x.personId == p

/-- Number of assignments with key `(v, p)` in `l`. -/
def keyCount (l : List Assignment) (v p : String) : Nat :=
  l.countP (hasKey v p)

/-- The `stay` flag of the first assignment with key `(v, p)` in `l`. -/
def stayOf (l : List Assignment) (v p : String) : Option Bool :=
  (l.find? (hasKey v p)).map (·.stay)

/-- The `stay` flag passed by the last call for key `(v, p)` in a call
sequence. -/
def lastStay (calls : List Assignment) (v p : String) : Option Bool :=
  ((calls.filter (hasKey v p)).getLast?).map (·.stay)

/-- The spec's worked example state: Dana Levi assigned to the Jeep with
`stay = true`, no convoy info. -/
def exampleState : DataService :=
  { people := [{ idNumber := "1234567", fullName := "Dana Levi" }],
    vehicles := [{ vehicleId := "12345", designation := "Jeep" }],
    assignments := [{ vehicleId := "12345", personId := "1234567", stay := true }],
    convoyInfo := none }

/-- A state whose single assignment references a person and a vehicle that
are absent from their collections (a dangling import). -/
def danglingState : DataService :=
  { people := [], vehicles := [],
    assignments := [{ vehicleId := "12345", personId := "1234567", stay := true }],
    convoyInfo := none }

/-- A state where the id `1234567` names no person but does name a vehicle
(7-digit vehicle ids are legal), and a dangling assignment carries it as
`personId`. -/
def collidingState : DataService :=
  { people := [],
    vehicles := [{ vehicleId := "1234567", designation := "Jeep" }],
    assignments := [{ vehicleId := "1234567", personId := "1234567", stay := true }],
    convoyInfo := none }

/-- A state with one resolvable group plus a vehicle whose only assignment
is dangling. -/
def mixedState : DataService :=
  { people := [{ idNumber := "1234567", fullName := "Dana Levi" }],
    vehicles := [{ vehicleId := "12345", designation := "Jeep" },
      { vehicleId := "54321", designation := "Truck" }],
    assignments := [{ vehicleId := "12345", personId := "1234567", stay := true },
      { vehicleId := "54321", personId := "9999999", stay := false }],
    convoyInfo := none }

/-! ## Theorems -/

/-- C3: on the spec's worked example state (Dana Levi assigned to the Jeep
with `stay = true`, no convoy info), `generateOutput` returns exactly the
one-group report with the `stay = true` label. -/
theorem generateOutput_example :
    exampleState.generateOutput = "Jeep 12345\nDana Levi 1234567 - " ++ stayLabel true := rfl

/-- C7: importing the snapshot produced by `exportData` restores exactly the
same observable state (people, vehicles, assignments, convoyInfo). -/
theorem importData_exportData_roundtrip (s : DataService) :
    s.importData s.exportData = s := rfl

/-- C8: `clearAll` empties the three collections and leaves `convoyInfo`
unchanged; `clearAssignments` empties only `assignments` and nulls
`convoyInfo` in the same transition, leaving people and vehicles unchanged. -/
theorem clearAll_clearAssignments_spec (s : DataService) :
    s.clearAll
        = { people := [], vehicles := [], assignments := [], convoyInfo := s.convoyInfo }
      ∧ s.clearAssignments
        = { people := s.people, vehicles := s.vehicles, assignments := [],
            convoyInfo := none } :=
  ⟨rfl, rfl⟩

/-- C2: `removePerson X` removes the person with `idNumber = X` (a no-op on
`people` when absent) and every assignment with `personId = X`, leaving zero
assignments referencing `X`; `removeVehicle X` is symmetric. -/
theorem remove_cascade (s : DataService) (X : String) :
    (s.removePerson X).people.countP (fun q => q.idNumber == X) = 0
    ∧ (s.removePerson X).assignments.countP (fun a => a.personId == X) = 0
    ∧ ((∀ q ∈ s.people, q.idNumber ≠ X) → (s.removePerson X).people = s.people)
    ∧ (s.removePerson X).people = s.people.filter (fun q => q.idNumber != X)
    ∧ (s.removePerson X).assignments = s.assignments.filter (fun a => a.personId != X)
    ∧ (s.removeVehicle X).vehicles.countP (fun w => w.vehicleId == X) = 0
    ∧ (s.removeVehicle X).assignments.countP (fun a => a.vehicleId == X) = 0
    ∧ ((∀ w ∈ s.vehicles, w.vehicleId ≠ X) → (s.removeVehicle X).vehicles = s.vehicles)
    ∧ (s.removeVehicle X).vehicles = s.vehicles.filter (fun w => w.vehicleId != X)
    ∧ (s.removeVehicle X).assignments = s.assignments.filter (fun a => a.vehicleId != X) := by
  refine ⟨?_, ?_, ?_, rfl, rfl, ?_, ?_, ?_, rfl, rfl⟩
  · exact List.countP_eq_zero.mpr (fun q hq => by
      have h2 := (List.mem_filter.mp hq).2
      simp only [bne_iff_ne, ne_eq] at h2
      simpa using h2)
  · exact List.countP_eq_zero.mpr (fun a ha => by
      have h2 := (List.mem_filter.mp ha).2
      simp only [bne_iff_ne, ne_eq] at h2
      simpa using h2)
  · intro h
    exact List.filter_eq_self.mpr (fun q hq => by simpa using h q hq)
  · exact List.countP_eq_zero.mpr (fun w hw => by
      have h2 := (List.mem_filter.mp hw).2
      simp only [bne_iff_ne, ne_eq] at h2
      simpa using h2)
  · exact List.countP_eq_zero.mpr (fun a ha => by
      have h2 := (List.mem_filter.mp ha).2
      simp only [bne_iff_ne, ne_eq] at h2
      simpa using h2)
  · intro h
    exact List.filter_eq_self.mpr (fun w hw => by simpa using h w hw)

/-- Witness for C2 on the worked example state. -/
theorem remove_cascade_witness :
    (exampleState.removePerson "1234567").people.countP (fun q => q.idNumber == "1234567") = 0
    ∧ (exampleState.removePerson "1234567").assignments.countP
        (fun a => a.personId == "1234567") = 0
    ∧ (exampleState.removeVehicle "99999").vehicles = exampleState.vehicles := by
  have h := remove_cascade exampleState "1234567"
  have h' := remove_cascade exampleState "99999"
  exact ⟨h.1, h.2.1, h'.2.2.2.2.2.2.2.1 (by decide)⟩

/-- C9: removing an id that is absent from `people` (resp. `vehicles`) still
removes every assignment carrying it, so dangling assignments are cleaned up
by removing their already-absent endpoint; the other two collections (and
`convoyInfo`) are untouched. -/
theorem remove_absent_endpoint (s : DataService) (X : String) :
    ((∀ q ∈ s.people, q.idNumber ≠ X) →
      (s.removePerson X).people = s.people
      ∧ (s.removePerson X).vehicles = s.vehicles
      ∧ (s.removePerson X).convoyInfo = s.convoyInfo
      ∧ (s.removePerson X).assignments = s.assignments.filter (fun a => a.personId != X)
      ∧ (s.removePerson X).assignments.countP (fun a => a.personId == X) = 0)
    ∧ ((∀ w ∈ s.vehicles, w.vehicleId ≠ X) →
      (s.removeVehicle X).vehicles = s.vehicles
      ∧ (s.removeVehicle X).people = s.people
      ∧ (s.removeVehicle X).convoyInfo = s.convoyInfo
      ∧ (s.removeVehicle X).assignments = s.assignments.filter (fun a => a.vehicleId != X)
      ∧ (s.removeVehicle X).assignments.countP (fun a => a.vehicleId == X) = 0) := by
  have h := remove_cascade s X
  exact ⟨fun hp => ⟨h.2.2.1 hp, rfl, rfl, rfl, h.2.1⟩,
    fun hv => ⟨h.2.2.2.2.2.2.2.1 hv, rfl, rfl, rfl, h.2.2.2.2.2.2.1⟩⟩

/-- Witness for C9 on `collidingState`, where the removed id `1234567` is
absent from `people` but is a live `vehicleId`: `removePerson` still deletes
the dangling assignment and leaves people and vehicles (including the
colliding vehicle) unchanged; symmetrically `removeVehicle` of an id absent
from `vehicles` filters assignments by `vehicleId`. -/
theorem remove_absent_endpoint_witness :
    (collidingState.removePerson "1234567").people = collidingState.people
    ∧ (collidingState.removePerson "1234567").vehicles = collidingState.vehicles
    ∧ (collidingState.removePerson "1234567").assignments = []
    ∧ (collidingState.removeVehicle "7654321").people = collidingState.people
    ∧ (collidingState.removeVehicle "7654321").assignments
        = collidingState.assignments.filter (fun a => a.vehicleId != "7654321") := by
  have hper := (remove_absent_endpoint collidingState "1234567").1 (by decide)
  have hveh := (remove_absent_endpoint collidingState "7654321").2 (by decide)
  refine ⟨hper.1, hper.2.1, ?_, hveh.2.1, hveh.2.2.2.1⟩
  rw [hper.2.2.2.1]
  decide

/-- C4: the report never contains a group for a vehicle with no resolvable
occupants: every emitted group is non-empty and consists of resolved
(`isSome`) people, and a vehicle whose `assignedPeople` list is empty is
omitted from `vehicleGroups` entirely. -/
theorem report_omits_empty_groups (s : DataService) :
    (∀ g ∈ vehicleGroups s, g.2 ≠ [] ∧ ∀ item ∈ g.2, item.1.isSome = true)
    ∧ (∀ v ∈ s.vehicles, assignedPeople s.people s.assignments v = [] →
        v ∉ (vehicleGroups s).map Prod.fst) := by
  constructor
  · intro g hg
    have hmem := List.mem_of_mem_filter hg
    have hpred := (List.mem_filter.mp hg).2
    refine ⟨?_, ?_⟩
    · intro hnil
      rw [hnil] at hpred
      simp at hpred
    · intro item hitem
      rcases List.mem_map.mp hmem with ⟨v, _, hv⟩
      rw [← hv] at hitem
      exact (List.mem_filter.mp hitem).2
  · intro v _ hempty hvmem
    rcases List.mem_map.mp hvmem with ⟨g, hg, hgv⟩
    have hmem := List.mem_of_mem_filter hg
    have hpred := (List.mem_filter.mp hg).2
    rcases List.mem_map.mp hmem with ⟨w, _, hw⟩
    rw [← hw] at hgv hpred
    simp only [Prod.fst] at hgv
    rw [hgv, hempty] at hpred
    simp at hpred

/-- Witness for C4 on `mixedState`: the Truck, whose only assignment is
dangling, is not among the report's groups. -/
theorem report_omits_empty_groups_witness :
    ({ vehicleId := "54321", designation := "Truck" } : Vehicle)
      ∉ (vehicleGroups mixedState).map Prod.fst :=
  (report_omits_empty_groups mixedState).2
    { vehicleId := "54321", designation := "Truck" } (by decide) (by decide)

/-- C10: with duplicate `idNumber`s in `people`, the report resolves an
assignment carrying that id to the *first* matching person in collection
order, the resolved pair contributes to the vehicle's group, and the printed
line shows that first person's `fullName` and `idNumber`. -/
theorem duplicate_ids_resolve_first (pre post : List Person) (p : Person) (pid : String)
    (assigns : List Assignment) (v : Vehicle) (a : Assignment)
    (hp : p.idNumber = pid) (hpre : ∀ q ∈ pre, q.idNumber ≠ pid)
    (hmem : a ∈ assigns) (hv : a.vehicleId = v.vehicleId) (hpid : a.personId = pid) :
    resolvePerson (pre ++ p :: post) pid = some p
    ∧ (some p, a.stay) ∈ assignedPeople (pre ++ p :: post) assigns v
    ∧ personLine (some p, a.stay)
        = p.fullName ++ " " ++ p.idNumber ++ " - " ++ stayLabel a.stay := by
  have hres : resolvePerson (pre ++ p :: post) pid = some p := by
    unfold resolvePerson
    rw [List.find?_append]
    have hnone : pre.find? (fun q => q.idNumber == pid) = none := by
      rw [List.find?_eq_none]
      intro q hq
      simpa using hpre q hq
    rw [hnone, List.find?_cons_of_pos _ (by simpa using hp)]
    rfl
  refine ⟨hres, ?_, rfl⟩
  unfold assignedPeople
  apply List.mem_filter.mpr
  refine ⟨?_, rfl⟩
  apply List.mem_map.mpr
  refine ⟨a, List.mem_filter.mpr ⟨hmem, by simpa using hv⟩, ?_⟩
  rw [hpid, hres]

/-- Witness for C10: two people share id `1234567`; the report line uses the
first one, Dana Levi. -/
theorem duplicate_ids_resolve_first_witness :
    resolvePerson [{ idNumber := "1234567", fullName := "Dana Levi" },
        { idNumber := "1234567", fullName := "Noa Cohen" }] "1234567"
      = some { idNumber := "1234567", fullName := "Dana Levi" }
    ∧ (some ({ idNumber := "1234567", fullName := "Dana Levi" } : Person), true)
        ∈ assignedPeople
            [{ idNumber := "1234567", fullName := "Dana Levi" },
              { idNumber := "1234567", fullName := "Noa Cohen" }]
            [{ vehicleId := "12345", personId := "1234567", stay := true }]
            { vehicleId := "12345", designation := "Jeep" }
    ∧ personLine (some ({ idNumber := "1234567", fullName := "Dana Levi" } : Person), true)
        = "Dana Levi" ++ " " ++ "1234567" ++ " - " ++ stayLabel true :=
  duplicate_ids_resolve_first []
    [{ idNumber := "1234567", fullName := "Noa Cohen" }]
    { idNumber := "1234567", fullName := "Dana Levi" } "1234567"
    [{ vehicleId := "12345", personId := "1234567", stay := true }]
    { vehicleId := "12345", designation := "Jeep" }
    { vehicleId := "12345", personId := "1234567", stay := true }
    rfl (by simp) (by simp) rfl rfl

/-- C5 counterexample: `addPerson` appends unconditionally, so two
`addPerson` calls with the same `idNumber` reach a state violating key
uniqueness from the empty state. -/
theorem uniqueKeys_counterexample :
    ¬ uniqueKeys
        ((emptyState.addPerson { idNumber := "1234567", fullName := "Dana Levi" }).addPerson
          { idNumber := "1234567", fullName := "Noa Cohen" }) := by
  intro h
  have h1 := h.1
  simp [emptyState, DataService.addPerson, List.pairwise_cons] at h1

/-- C5 (amended): key uniqueness is *not* an invariant of the store —
`addPerson` / `addVehicle` append unconditionally (so duplicate keys are
reachable, see the counterexample) — but every other mutation operation
does preserve uniqueness of `idNumber` and `vehicleId`. -/
theorem uniqueKeys_preserved_except_add (s : DataService) (X Y : String) (a : Assignment)
    (p : Person) (v : Vehicle) (c : ConvoyInfo) (h : uniqueKeys s) :
    uniqueKeys (s.removePerson X) ∧ uniqueKeys (s.removeVehicle X)
    ∧ uniqueKeys (s.addAssignment a) ∧ uniqueKeys (s.removeAssignment X Y)
    ∧ uniqueKeys s.clearAll ∧ uniqueKeys s.clearAssignments
    ∧ uniqueKeys (s.setConvoyInfo c)
    ∧ (s.addPerson p).people = s.people ++ [p]
    ∧ (s.addVehicle v).vehicles = s.vehicles ++ [v] := by
  obtain ⟨h1, h2⟩ := h
  exact ⟨⟨List.Pairwise.sublist (List.filter_sublist _) h1, h2⟩,
    ⟨h1, List.Pairwise.sublist (List.filter_sublist _) h2⟩,
    ⟨h1, h2⟩, ⟨h1, h2⟩, ⟨List.Pairwise.nil, List.Pairwise.nil⟩, ⟨h1, h2⟩, ⟨h1, h2⟩,
    rfl, rfl⟩

/-- Witness for the amended C5 on the worked example state. -/
theorem uniqueKeys_preserved_except_add_witness :
    uniqueKeys (exampleState.removePerson "1234567")
    ∧ uniqueKeys (exampleState.addAssignment
        { vehicleId := "12345", personId := "1234567", stay := false })
    ∧ uniqueKeys exampleState.clearAll := by
  have h := uniqueKeys_preserved_except_add exampleState "1234567" "1234567"
    { vehicleId := "12345", personId := "1234567", stay := false }
    { idNumber := "7654321", fullName := "Noa Cohen" }
    { vehicleId := "54321", designation := "Truck" }
    { goal := "g", date := "d", time := "t" }
    (by constructor <;> simp [exampleState])
  exact ⟨h.1, h.2.2.1, h.2.2.2.2.1⟩

theorem hasKey_self (a : Assignment) : hasKey a.vehicleId a.personId a = true := by
  simp [hasKey]

theorem hasKey_replace (v p : String) (x : Assignment) (b : Bool) :
    hasKey v p { x with stay := b } = hasKey v p x := rfl

theorem hasKey_congr_of_sameKey {x a : Assignment} (h : sameKey x a = true) (v p : String) :
    hasKey v p x = hasKey v p a := by
  unfold sameKey at h
  rw [Bool.and_eq_true] at h
  unfold hasKey
  rw [eq_of_beq h.1, eq_of_beq h.2]

theorem sameKey_ids {x a : Assignment} (h : sameKey x a = true) :
    x.vehicleId = a.vehicleId ∧ x.personId = a.personId := by
  unfold sameKey at h
  rw [Bool.and_eq_true] at h
  exact ⟨eq_of_beq h.1, eq_of_beq h.2⟩

theorem hasKey_ids {x : Assignment} {v p : String} (h : hasKey v p x = true) :
    x.vehicleId = v ∧ x.personId = p := by
  unfold hasKey at h
  rw [Bool.and_eq_true] at h
  exact ⟨eq_of_beq h.1, eq_of_beq h.2⟩

theorem keyCount_addAssignmentList_self (l : List Assignment) (a : Assignment) :
    keyCount (addAssignmentList l a) a.vehicleId a.personId
      = max (keyCount l a.vehicleId a.personId) 1 := by
  induction l with
  | nil => simp [addAssignmentList, keyCount, List.countP_cons, hasKey_self]
  | cons x xs ih =>
      cases hsk : sameKey x a with
      | false =>
          have hx : hasKey a.vehicleId a.personId x = false := hsk
          simp only [addAssignmentList]
          rw [if_neg (by simp [hsk])]
          rw [keyCount, List.countP_cons, keyCount, List.countP_cons, hx]
          simp only [keyCount] at ih ⊢
          simp only [Bool.false_eq_true, if_false]
          omega
      | true =>
          have hx : hasKey a.vehicleId a.personId x = true := hsk
          have hr : hasKey a.vehicleId a.personId { x with stay := a.stay } = true := hsk
          simp only [addAssignmentList]
          rw [if_pos hsk]
          rw [keyCount, List.countP_cons, keyCount, List.countP_cons, hx, hr]
          simp only [keyCount]
          simp

theorem keyCount_addAssignmentList_other (l : List Assignment) (a : Assignment)
    (v p : String) (h : hasKey v p a = false) :
    keyCount (addAssignmentList l a) v p = keyCount l v p := by
  induction l with
  | nil => simp [addAssignmentList, keyCount, List.countP_cons, h]
  | cons x xs ih =>
      cases hsk : sameKey x a with
      | false =>
          simp only [addAssignmentList]
          rw [if_neg (by simp [hsk])]
          rw [keyCount, List.countP_cons, keyCount, List.countP_cons]
          simp only [keyCount] at ih
          omega
      | true =>
          have hr : hasKey v p { x with stay := a.stay } = hasKey v p x :=
            hasKey_replace v p x a.stay
          simp only [addAssignmentList]
          rw [if_pos hsk]
          rw [keyCount, List.countP_cons, keyCount, List.countP_cons, hr]

theorem stayOf_cons (x : Assignment) (l : List Assignment) (v p : String) :
    stayOf (x :: l) v p = if hasKey v p x then some x.stay else stayOf l v p := by
  cases hx : hasKey v p x with
  | false =>
      rw [stayOf, List.find?_cons_of_neg _ (by simp [hx])]
      simp [stayOf, hx]
  | true =>
      rw [stayOf, List.find?_cons_of_pos _ hx]
      simp [hx]

theorem stayOf_addAssignmentList_self (l : List Assignment) (a : Assignment) :
    stayOf (addAssignmentList l a) a.vehicleId a.personId = some a.stay := by
  induction l with
  | nil =>
      rw [addAssignmentList, stayOf, List.find?_cons_of_pos _ (hasKey_self a)]
      rfl
  | cons x xs ih =>
      cases hsk : sameKey x a with
      | false =>
          have hx : hasKey a.vehicleId a.personId x = false := hsk
          simp only [addAssignmentList]
          rw [if_neg (by simp [hsk]), stayOf_cons, hx]
          simpa using ih
      | true =>
          have hr : hasKey a.vehicleId a.personId { x with stay := a.stay } = true := hsk
          simp only [addAssignmentList]
          rw [if_pos hsk, stayOf_cons, hr]
          simp

theorem stayOf_addAssignmentList_other (l : List Assignment) (a : Assignment)
    (v p : String) (h : hasKey v p a = false) :
    stayOf (addAssignmentList l a) v p = stayOf l v p := by
  induction l with
  | nil =>
      rw [addAssignmentList, stayOf, List.find?_cons_of_neg _ (by simp [h])]
      rfl
  | cons x xs ih =>
      cases hsk : sameKey x a with
      | false =>
          simp only [addAssignmentList]
          rw [if_neg (by simp [hsk]), stayOf_cons, stayOf_cons]
          cases hx : hasKey v p x with
          | false => simpa using ih
          | true => rfl
      | true =>
          have hxa : hasKey v p x = hasKey v p a := hasKey_congr_of_sameKey hsk v p
          have hr : hasKey v p { x with stay := a.stay } = hasKey v p x :=
            hasKey_replace v p x a.stay
          simp only [addAssignmentList]
          rw [if_pos hsk, stayOf_cons, stayOf_cons, hr, hxa, h]
          simp

theorem keyCount_foldl_of_not_mem (calls : List Assignment) (init : List Assignment)
    (v p : String) (h : ∀ c ∈ calls, hasKey v p c = false) :
    keyCount (calls.foldl addAssignmentList init) v p = keyCount init v p := by
  induction calls generalizing init with
  | nil => rfl
  | cons c cs ih =>
      rw [List.foldl_cons, ih _ (fun d hd => h d (List.mem_cons_of_mem _ hd)),
        keyCount_addAssignmentList_other _ _ _ _ (h c (List.mem_cons_self _ _))]

theorem keyCount_foldl_of_mem (calls init : List Assignment) (v p : String)
    (h : ∃ c ∈ calls, hasKey v p c = true) :
    keyCount (calls.foldl addAssignmentList init) v p = max (keyCount init v p) 1 := by
  induction calls generalizing init with
  | nil => exact absurd h (by simp)
  | cons c cs ih =>
      rw [List.foldl_cons]
      by_cases hc : hasKey v p c = true
      · obtain ⟨hv1, hv2⟩ := hasKey_ids hc
        have hstep : keyCount (addAssignmentList init c) v p
            = max (keyCount init v p) 1 := by
          rw [← hv1, ← hv2]
          exact keyCount_addAssignmentList_self init c
        by_cases hcs : ∃ d ∈ cs, hasKey v p d = true
        · rw [ih _ hcs, hstep]
          omega
        · push_neg at hcs
          rw [keyCount_foldl_of_not_mem _ _ _ _ (fun d hd => by simpa using hcs d hd), hstep]
      · have hc' : hasKey v p c = false := by simpa using hc
        obtain ⟨d, hd, hdk⟩ := h
        have hdcs : d ∈ cs := by
          cases hd with
          | head => exact absurd hdk hc
          | tail _ hd' => exact hd'
        rw [ih _ ⟨d, hdcs, hdk⟩, keyCount_addAssignmentList_other _ _ _ _ hc']

theorem stayOf_foldl_of_not_mem (calls init : List Assignment) (v p : String)
    (h : ∀ c ∈ calls, hasKey v p c = false) :
    stayOf (calls.foldl addAssignmentList init) v p = stayOf init v p := by
  induction calls generalizing init with
  | nil => rfl
  | cons c cs ih =>
      rw [List.foldl_cons, ih _ (fun d hd => h d (List.mem_cons_of_mem _ hd)),
        stayOf_addAssignmentList_other _ _ _ _ (h c (List.mem_cons_self _ _))]

theorem stayOf_foldl (calls : List Assignment) (init : List Assignment) (v p : String)
    (b : Bool) (h : lastStay calls v p = some b) :
    stayOf (calls.foldl addAssignmentList init) v p = some b := by
  induction calls generalizing init with
  | nil => simp [lastStay] at h
  | cons c cs ih =>
      rw [List.foldl_cons]
      by_cases hc : hasKey v p c = true
      · by_cases hcs : ∃ d ∈ cs, hasKey v p d = true
        · apply ih _
          have hne : cs.filter (hasKey v p) ≠ [] := by
            obtain ⟨d, hd, hdk⟩ := hcs
            intro hnil
            exact (List.filter_eq_nil_iff.mp hnil d hd) hdk
          obtain ⟨y, ys, hys⟩ := List.exists_cons_of_ne_nil hne
          unfold lastStay at h ⊢
          rw [List.filter_cons_of_pos hc, hys, List.getLast?_cons, List.getLast?_cons] at h
          rw [hys, List.getLast?_cons]
          simpa using h
        · push_neg at hcs
          have hfil : cs.filter (hasKey v p) = [] :=
            List.filter_eq_nil_iff.mpr (fun d hd => hcs d hd)
          unfold lastStay at h
          rw [List.filter_cons_of_pos hc, hfil] at h
          simp at h
          rw [stayOf_foldl_of_not_mem _ _ _ _ (fun d hd => by simpa using hcs d hd)]
          obtain ⟨hv1, hv2⟩ := hasKey_ids hc
          rw [← h, ← hv1, ← hv2]
          exact stayOf_addAssignmentList_self init c
      · have hc' : hasKey v p c = false := by simpa using hc
        apply ih
        unfold lastStay at h ⊢
        rwa [List.filter_cons_of_neg (by simp [hc'])] at h

theorem addAssignmentList_of_no_match (l : List Assignment) (a : Assignment)
    (h : ∀ x ∈ l, sameKey x a = false) :
    addAssignmentList l a = l ++ [a] := by
  induction l with
  | nil => rfl
  | cons x xs ih =>
      simp only [addAssignmentList]
      rw [if_neg (by simp [h x (List.mem_cons_self _ _)])]
      rw [ih (fun y hy => h y (List.mem_cons_of_mem _ hy))]
      rfl

theorem addAssignmentList_of_match (l : List Assignment) (a : Assignment)
    (h : ∃ x ∈ l, sameKey x a = true) :
    ∃ i : Fin l.length, sameKey (l.get i) a = true
      ∧ (∀ j : Fin l.length, j.1 < i.1 → sameKey (l.get j) a = false)
      ∧ addAssignmentList l a = l.set i.1 { l.get i with stay := a.stay } := by
  induction l with
  | nil => simp at h
  | cons x xs ih =>
      cases hsk : sameKey x a with
      | true =>
          refine ⟨⟨0, by simp⟩, hsk, ?_, ?_⟩
          · intro j hj
            exact absurd hj (Nat.not_lt_zero _)
          · simp only [addAssignmentList]
            rw [if_pos hsk]
            rfl
      | false =>
          have h' : ∃ y ∈ xs, sameKey y a = true := by
            obtain ⟨y, hy, hyk⟩ := h
            cases hy with
            | head => rw [hyk] at hsk; cases hsk
            | tail _ hy' => exact ⟨y, hy', hyk⟩
          obtain ⟨i, hi1, hi2, hi3⟩ := ih h'
          refine ⟨⟨i.1 + 1, Nat.succ_lt_succ i.2⟩, ?_, ?_, ?_⟩
          · simpa using hi1
          · intro j hj
            match j with
            | ⟨0, _⟩ => exact hsk
            | ⟨k + 1, hk⟩ =>
                exact hi2 ⟨k, Nat.lt_of_succ_lt_succ hk⟩ (Nat.lt_of_succ_lt_succ hj)
          · simp only [addAssignmentList]
            rw [if_neg (by simp [hsk])]
            show x :: addAssignmentList xs a = x :: xs.set i.1 _
            rw [hi3]
            rfl

theorem foldl_addAssignment_assignments (calls : List Assignment) (s : DataService) :
    (calls.foldl DataService.addAssignment s).assignments
      = calls.foldl addAssignmentList s.assignments := by
  induction calls generalizing s with
  | nil => rfl
  | cons c cs ih => rw [List.foldl_cons, List.foldl_cons, ih]; rfl

/-- C1: folding any sequence of `addAssignment` calls from the empty store,
a `(v, p)` key that occurs in the calls ends up with exactly one assignment
entry, whose `stay` equals the last call's value; and a single
`addAssignment` step appends when no entry matches the key, otherwise it
replaces only the `stay` field of the first matching entry in place. -/
theorem addAssignment_key_unique (calls l : List Assignment) (a : Assignment)
    (v p : String) (b : Bool) (hlast : lastStay calls v p = some b) :
    (calls.foldl DataService.addAssignment emptyState).assignments
        = calls.foldl addAssignmentList []
    ∧ keyCount (calls.foldl addAssignmentList []) v p = 1
    ∧ stayOf (calls.foldl addAssignmentList []) v p = some b
    ∧ ((∀ x ∈ l, sameKey x a = false) → addAssignmentList l a = l ++ [a])
    ∧ ((∃ x ∈ l, sameKey x a = true) →
        ∃ i : Fin l.length, sameKey (l.get i) a = true
          ∧ (∀ j : Fin l.length, j.1 < i.1 → sameKey (l.get j) a = false)
          ∧ addAssignmentList l a = l.set i.1 { l.get i with stay := a.stay }) := by
  have hex : ∃ c ∈ calls, hasKey v p c = true := by
    by_contra hcon
    push_neg at hcon
    have hfil : calls.filter (hasKey v p) = [] :=
      List.filter_eq_nil_iff.mpr (fun d hd => hcon d hd)
    unfold lastStay at hlast
    rw [hfil] at hlast
    simp at hlast
  refine ⟨foldl_addAssignment_assignments calls emptyState, ?_,
    stayOf_foldl calls [] v p b hlast,
    addAssignmentList_of_no_match l a,
    addAssignmentList_of_match l a⟩
  have := keyCount_foldl_of_mem calls [] v p hex
  simpa [keyCount] using this

/-- Witness for C1: two calls for the same key, `stay = true` then
`stay = false`, leave one entry with `stay = false`. -/
theorem addAssignment_key_unique_witness :
    keyCount ([({ vehicleId := "12345", personId := "1234567", stay := true } : Assignment),
          { vehicleId := "12345", personId := "1234567", stay := false }].foldl
          addAssignmentList [])
        "12345" "1234567" = 1
    ∧ stayOf ([({ vehicleId := "12345", personId := "1234567", stay := true } : Assignment),
          { vehicleId := "12345", personId := "1234567", stay := false }].foldl
          addAssignmentList [])
        "12345" "1234567" = some false := by
  have h := addAssignment_key_unique
    [{ vehicleId := "12345", personId := "1234567", stay := true },
      { vehicleId := "12345", personId := "1234567", stay := false }]
    [] { vehicleId := "12345", personId := "1234567", stay := false }
    "12345" "1234567" false (by decide)
  exact ⟨h.2.1, h.2.2.1⟩
